import Mathlib

/-!
The txn-storm coordinator (`cmd/txn-storm/threads.go`).

A shallow embedding of the coordinator of the transaction load generator:

* `newThreads`  : construction, which splits the account indices among the
  generator workers;
* `Start`, `Stop` : the lifecycle, as functions on a coordinator together with
  the log of the operations invoked on the collaborators;
* `txTransfer`  : the rate limited transfer loop, as a function of the clock
  readings and of the instants at which its channel operations complete.

Go's `uint` is modelled by `Nat` reduced modulo `2 ^ 64` after every operation
that can overflow; `time.Duration` and `time.Time` are nanosecond counts.
-/

namespace TxnStorm

/-! ## Data model -/

/-- Number of values of Go's `uint` on a 64-bit platform. -/
def uintMod : Nat := 2 ^ 64

/-- Modelled from the spec: the generator worker type is declared outside
`threads.go`; the coordinator only builds it with
`newTxnGenerator(donor, from, to)`, so a generator is the record of those three
arguments, `[from_, to_)` being its account index range. -/
structure generator where
  donor : Nat
  from_ : Nat
  to_ : Nat
deriving DecidableEq, Repr

/-- Modelled from the spec: the sender worker type is declared outside
`threads.go`; the coordinator builds it with `newSender(nodeUrl)`. -/
structure sender where
  nodeUrl : String
deriving DecidableEq, Repr

/-- Modelled from the spec: the feedback listener type is declared outside
`threads.go`; the coordinator builds it with `newFeedback(nodeUrl)`. -/
structure feedback where
  nodeUrl : String
deriving DecidableEq, Repr

/-- The `threads` struct. `done` is `true` exactly when the Go field `done`
holds a channel (is not `nil`); the wait group and the mutex carry no data. -/
structure threads where
  generators : List generator
  senders : List sender
  feedback : feedback
  maxTxnsPerSec : Nat
  done : Bool
deriving DecidableEq, Repr

/-! ## Construction: `newThreads` -/

/-- The value `uint(block.Milliseconds()/1000)`: `Milliseconds` divides the
nanosecond count by `1e6`, both divisions truncate toward zero, and the
conversion to `uint` reduces modulo `2 ^ 64`. -/
def blockSeconds (block : Int) : Nat :=
  (((block.tdiv 1000000).tdiv 1000) % (uintMod : Int)).toNat

/-- The value stored in `tt.maxTxnsPerSec`: `maxTxnsPerSec / ofTotal`. -/
def rateBudget (maxTxnsPerSec ofTotal : Nat) : Nat :=
  maxTxnsPerSec / ofTotal

/-- The local `accs := tt.maxTxnsPerSec * uint(block.Milliseconds()/1000)`. -/
def accs (maxTxnsPerSec ofTotal : Nat) (block : Int) : Nat :=
  (rateBudget maxTxnsPerSec ofTotal * blockSeconds block) % uintMod

/-- The local `accsOnThread := accs / uint(count)` (for `count ≠ 0`). -/
def accsOnThread (count maxTxnsPerSec ofTotal : Nat) (block : Int) : Nat :=
  accs maxTxnsPerSec ofTotal block / count

/-- The initial value of the local `from := accs * num`. -/
def baseOffset (num maxTxnsPerSec ofTotal : Nat) (block : Int) : Nat :=
  (accs maxTxnsPerSec ofTotal block * num) % uintMod

/-- The loop `for i := range tt.generators`: `n` generators are still to be
built and `from_` is the current value of the local `from`. -/
def assign (donor width : Nat) : Nat → Nat → List generator
  | 0, _ => []
  | n + 1, from_ =>
    { donor := donor, from_ := from_, to_ := (from_ + width) % uintMod }
      :: assign donor width n ((from_ + width) % uintMod)

/-- The function `newThreads`; `count` is the value of `runtime.NumCPU()`. The
two failures are the explicit `panic` of the guard and the run-time panic of
the division `accs / uint(count)` by zero. -/
def newThreads (count : Nat) (nodeUrl : String) (donor num ofTotal maxTxnsPerSec : Nat)
    (block : Int) : Except String threads :=
  if num < 1 ∨ num > ofTotal then
    .error "num is a generator number of total generators count"
  else if count = 0 then
    .error "runtime error: integer divide by zero"
  else
    .ok
      { generators :=
          assign donor (accsOnThread count maxTxnsPerSec ofTotal block) count
            (baseOffset num maxTxnsPerSec ofTotal block)
        senders := List.replicate 10 { nodeUrl := nodeUrl }
        feedback := { nodeUrl := nodeUrl }
        maxTxnsPerSec := rateBudget maxTxnsPerSec ofTotal
        done := false }

/-- The account index ranges `(from, to)` of a generator pool, in pool order. -/
def ranges (gs : List generator) : List (Nat × Nat) :=
  gs.map fun g => (g.from_, g.to_)

/-- Whether account index `x` lies in the half-open range of `g`. -/
def generator.covers (g : generator) (x : Nat) : Prop :=
  g.from_ ≤ x ∧ x < g.to_

instance (g : generator) (x : Nat) : Decidable (g.covers x) :=
  inferInstanceAs (Decidable (g.from_ ≤ x ∧ x < g.to_))

/-- No `uint` operation of the partition wraps around: the end of the last
range, computed in unbounded naturals, is still a `uint`. -/
def noWrap (count num ofTotal maxTxnsPerSec : Nat) (block : Int) : Prop :=
  rateBudget maxTxnsPerSec ofTotal * blockSeconds block * num
    + count * (rateBudget maxTxnsPerSec ofTotal * blockSeconds block / count) < uintMod

instance (count num ofTotal maxTxnsPerSec : Nat) (block : Int) :
    Decidable (noWrap count num ofTotal maxTxnsPerSec block) :=
  inferInstanceAs (Decidable
    (rateBudget maxTxnsPerSec ofTotal * blockSeconds block * num
      + count * (rateBudget maxTxnsPerSec ofTotal * blockSeconds block / count) < uintMod))

/-- Ten seconds, in nanoseconds. -/
def tenSeconds : Int := 10000000000

/-! ## Lifecycle: `Start` and `Stop` -/

/-- A transaction (`*types.Transaction`) is opaque to the coordinator. The only
transactions it obtains itself are the results of `Yield(seq)`, identified by
the pool position `gen` of the generator asked (`0` for the first one) and by
the handoff number `seq`. -/
structure Txn where
  gen : Nat
  seq : Nat
deriving DecidableEq, Repr

/-- The operations `Start` and `Stop` perform on the collaborators, on the
channels and on the background tasks, in program order. Positions in the pools
count from `0`. -/
inductive Op
  | makeChannels (destinationCap sourceCap : Nat)
  | goTxTransfer
  | senderStart (i : Nat)
  | generatorYield (i seq : Nat)
  | destinationSend (txn : Txn)
  | generatorStart (i : Nat)
  | feedbackStart
  | goBlockNotify
  | feedbackStop
  | generatorStop (i : Nat)
  | senderStop (i : Nat)
  | closeDone
  | workWait
  | logInfo (msg : String)
deriving DecidableEq, Repr

/-- A coordinator together with the log of the operations performed so far. -/
structure World where
  tt : threads
  log : List Op
deriving DecidableEq, Repr

/-- The bootstrap loop of `Start`: `txn := t.Yield(uint(i + 1))` followed by
`destination <- txn`, for each generator in pool order. The handoff number
`i + 1` is at most the pool size, so its conversion to `uint` is exact. -/
def bootstrapOps (n : Nat) : List Op :=
  (List.range n).flatMap fun i =>
    [Op.generatorYield i (i + 1), Op.destinationSend { gen := i, seq := i + 1 }]

/-- Everything `Start` does, between taking the lock and releasing it, when
`tt.done == nil`. -/
def startOps (tt : threads) : List Op :=
  [Op.makeChannels (tt.senders.length * 2) (tt.generators.length * 2), Op.goTxTransfer]
    ++ (List.range tt.senders.length).map Op.senderStart
    ++ bootstrapOps tt.generators.length
    ++ (List.range tt.generators.length).map Op.generatorStart
    ++ [Op.feedbackStart, Op.goBlockNotify, Op.logInfo "started"]

/-- Everything `Stop` does when `tt.done != nil`. The three groups of `Stop`
calls run in goroutines of their own; they are logged in the order in which
they are spawned. -/
def stopOps (tt : threads) : List Op :=
  [Op.feedbackStop]
    ++ (List.range tt.generators.length).map Op.generatorStop
    ++ (List.range tt.senders.length).map Op.senderStop
    ++ [Op.closeDone, Op.workWait, Op.logInfo "stopped"]

/-- The method `Start`, run under the coordinator's mutex. -/
def Start (w : World) : World :=
  if w.tt.done then w
  else { tt := { w.tt with done := true }, log := w.log ++ startOps w.tt }

/-- The method `Stop`, run under the coordinator's mutex. -/
def Stop (w : World) : World :=
  if !w.tt.done then w
  else { tt := { w.tt with done := false }, log := w.log ++ stopOps w.tt }

/-- The transactions pushed onto the destination channel, in order. -/
def destinationSends (ops : List Op) : List Txn :=
  ops.filterMap fun op =>
    match op with
    | Op.destinationSend txn => some txn
    | _ => none

/-- Whether an operation is a `Start(source)` of a generator. -/
def Op.isGeneratorStart : Op → Bool
  | Op.generatorStart _ => true
  | _ => false

/-- Whether an operation is a push onto the destination channel. -/
def Op.isDestinationSend : Op → Bool
  | Op.destinationSend _ => true
  | _ => false

/-! ## The transfer loop: `txTransfer` -/

/-- The constant `time.Second`, in nanoseconds. -/
def second : Nat := 1000000000

/-- The `select` of one loop iteration, if any, in which `<-tt.done` wins. -/
inductive Cancel
  | never
  | atWait
  | atReceive
  | atSend
deriving DecidableEq, Repr

/-- What the environment contributes to one iteration of the loop: the clock
readings and the instants at which the blocking operations complete.
* `sinceAt` : the clock read by `time.Since(start)`;
* `resetAt` : the value of `time.Now()` stored in `start`;
* `waitAt`  : the value of `time.Now()` used for `timeout`;
* `wakeAt`  : the instant at which `<-time.After(timeout)` is taken;
* `recvAt`  : the instant at which `txn = <-source` is taken;
* `sendAt`  : the instant at which `destination <- txn` is taken. -/
structure Tick where
  sinceAt : Nat
  resetAt : Nat
  waitAt : Nat
  wakeAt : Nat
  recvAt : Nat
  sendAt : Nat
  cancel : Cancel
deriving DecidableEq, Repr

/-- The locals `count` and `start` of `txTransfer`; `start = none` is the zero
`time.Time` the variable is declared with. -/
structure Window where
  count : Nat
  start : Option Nat
deriving DecidableEq, Repr

/-- What can be observed of a run of the loop. -/
inductive Event
  | since (t : Nat)
  | reset (t : Nat)
  | throttle (now : Nat) (timeout : Int) (wake : Nat)
  | receive (t : Nat)
  | forward (t : Nat)
  | closed
deriving DecidableEq, Repr

/-- Result of one iteration: the locals, the events, and whether the function
returned (running the deferred `close(destination)`). -/
structure Outcome where
  state : Window
  events : List Event
  returned : Bool
deriving DecidableEq, Repr

/-- The test `time.Since(start) >= time.Second` with the clock at `now`; the
zero `time.Time` lies more than a second before every clock reading. -/
def expired (start : Option Nat) (now : Nat) : Bool :=
  match start with
  | none => true
  | some s => decide (s + second ≤ now)

/-- The two `select` statements that receive a transaction and forward it. -/
def receiveAndSend (count start : Nat) (evs : List Event) (tk : Tick) : Outcome :=
  if tk.cancel = Cancel.atReceive then
    { state := { count := count, start := some start }
      events := evs ++ [Event.closed], returned := true }
  else if tk.cancel = Cancel.atSend then
    { state := { count := (count + 1) % uintMod, start := some start }
      events := evs ++ [Event.receive tk.recvAt, Event.closed], returned := true }
  else
    { state := { count := (count + 1) % uintMod, start := some start }
      events := evs ++ [Event.receive tk.recvAt, Event.forward tk.sendAt], returned := false }

/-- The throttling point `if count >= tt.maxTxnsPerSec`, then the rest of the
body. -/
def gate (maxTxnsPerSec count start : Nat) (evs : List Event) (tk : Tick) : Outcome :=
  if maxTxnsPerSec ≤ count then
    if tk.cancel = Cancel.atWait then
      { state := { count := count, start := some start }
        events := evs ++ [Event.closed], returned := true }
    else
      receiveAndSend count start
        (evs ++ [Event.throttle tk.waitAt ((start : Int) + (second : Int) - (tk.waitAt : Int))
          tk.wakeAt]) tk
  else
    receiveAndSend count start evs tk

/-- One pass through the body of the `for` loop. -/
def iteration (maxTxnsPerSec : Nat) (w : Window) (tk : Tick) : Outcome :=
  match w.start with
  | none =>
    gate maxTxnsPerSec 0 tk.resetAt [Event.since tk.sinceAt, Event.reset tk.resetAt] tk
  | some s =>
    if s + second ≤ tk.sinceAt then
      gate maxTxnsPerSec 0 tk.resetAt [Event.since tk.sinceAt, Event.reset tk.resetAt] tk
    else
      gate maxTxnsPerSec w.count s [Event.since tk.sinceAt] tk

/-- A run of the loop: the locals reached and the events so far. -/
structure Run where
  state : Window
  trace : List Event
deriving DecidableEq, Repr

/-- The `for` loop from the locals `w`, driven by one `Tick` for each
iteration; when the ticks are used up the run is observed as it stands. -/
def loop (maxTxnsPerSec : Nat) : Window → List Tick → Run
  | w, [] => { state := w, trace := [] }
  | w, tk :: rest =>
    let o := iteration maxTxnsPerSec w tk
    if o.returned then { state := o.state, trace := o.events }
    else
      let r := loop maxTxnsPerSec o.state rest
      { state := r.state, trace := o.events ++ r.trace }

/-- The method `txTransfer`: the loop from `count = 0` and the zero `start`. -/
def txTransfer (maxTxnsPerSec : Nat) (ticks : List Tick) : Run :=
  loop maxTxnsPerSec { count := 0, start := none } ticks

/-- The clock values carried by the events, in order. -/
def times : List Event → List Nat
  | [] => []
  | Event.since t :: es => t :: times es
  | Event.reset t :: es => t :: times es
  | Event.throttle now _ wake :: es => now :: wake :: times es
  | Event.receive t :: es => t :: times es
  | Event.forward t :: es => t :: times es
  | Event.closed :: es => times es

/-- The clock values `ts` never go back, starting from the value `clock`. -/
def ascending : Nat → List Nat → Prop
  | _, [] => True
  | clock, t :: ts => clock ≤ t ∧ ascending t ts

instance ascendingDecidable : (clock : Nat) → (ts : List Nat) → Decidable (ascending clock ts)
  | _, [] => isTrue trivial
  | clock, t :: ts =>
    have := ascendingDecidable t ts
    inferInstanceAs (Decidable (clock ≤ t ∧ ascending t ts))

/-- Time is non-decreasing along the run. -/
def nonDecreasing (tr : List Event) : Prop :=
  ascending 0 (times tr)

instance (tr : List Event) : Decidable (nonDecreasing tr) :=
  inferInstanceAs (Decidable (ascending 0 (times tr)))

/-- The timer of a throttle wait does not fire early: the wait that started at
`now` with duration `timeout` is over at `now + timeout` at the earliest. -/
def Event.timerOk : Event → Prop
  | Event.throttle now timeout wake => (now : Int) + timeout ≤ (wake : Int)
  | _ => True

instance (e : Event) : Decidable e.timerOk :=
  match e with
  | Event.throttle now timeout wake =>
    inferInstanceAs (Decidable ((now : Int) + timeout ≤ (wake : Int)))
  | Event.since _ => isTrue trivial
  | Event.reset _ => isTrue trivial
  | Event.receive _ => isTrue trivial
  | Event.forward _ => isTrue trivial
  | Event.closed => isTrue trivial

/-- Every throttle wait of the run returns at the end of its timeout or later,
that is, at `start + time.Second` or later. -/
def timersOk (tr : List Event) : Prop :=
  ∀ e ∈ tr, e.timerOk

instance (tr : List Event) : Decidable (timersOk tr) :=
  inferInstanceAs (Decidable (∀ e ∈ tr, e.timerOk))

/-- Whether no iteration of the run was cancelled. -/
def uncancelled (ticks : List Tick) : Prop :=
  ∀ tk ∈ ticks, tk.cancel = Cancel.never

instance (ticks : List Tick) : Decidable (uncancelled ticks) :=
  inferInstanceAs (Decidable (∀ tk ∈ ticks, tk.cancel = Cancel.never))

/-- Number of transactions forwarded at an instant of `[from_, from_ + 1s)`. -/
def forwardedIn (from_ : Nat) : List Event → Nat
  | [] => 0
  | Event.forward t :: es =>
    (if from_ ≤ t ∧ t < from_ + second then 1 else 0) + forwardedIn from_ es
  | _ :: es => forwardedIn from_ es

/-- An observer of the run: the start of the current counting window (the
instant of the last reset), the number of transactions received since that
reset, and the number of those forwarded before the window's second is over. -/
structure Meter where
  start : Option Nat
  received : Nat
  inWindow : Nat
deriving DecidableEq, Repr

/-- Whether the instant `t` lies before the end of the second that began at
`start` (no window has begun when `start` is `none`). -/
def inSecond (start : Option Nat) (t : Nat) : Bool :=
  match start with
  | some s => decide (t < s + second)
  | none => false

/-- How an event moves the observer. -/
def Meter.observe (m : Meter) : Event → Meter
  | Event.reset t => { start := some t, received := 0, inWindow := 0 }
  | Event.receive _ => { m with received := m.received + 1 }
  | Event.forward t =>
    { m with inWindow := m.inWindow + (if inSecond m.start t then 1 else 0) }
  | _ => m

/-- The property `P` holds of the observer before and after every event. -/
def always (P : Meter → Prop) : Meter → List Event → Prop
  | m, [] => P m
  | m, e :: es => P m ∧ always P (m.observe e) es

/-- The observer at the beginning of a run. -/
def Meter.init : Meter := { start := none, received := 0, inWindow := 0 }

/-- The clock value reached after the readings `ts`, starting from `clock`. -/
def endClock (clock : Nat) (ts : List Nat) : Nat :=
  ts.foldl (fun _ t => t) clock

/-- What the observer knows of the locals of the loop at the head of an
iteration reached with the clock at `clock`: the counter is the number of
transactions received since the last reset, at most one of them came after
the budget was used up, and then the window's second is over. -/
def Inv (C : Nat) (w : Window) (m : Meter) (clock : Nat) : Prop :=
  w.start = m.start ∧ w.count = m.received % uintMod ∧ m.received ≤ C + 1 ∧
    m.inWindow ≤ m.received ∧ m.inWindow ≤ C ∧
    (m.received = C + 1 → expired w.start clock = true)

/-- The bound the observer checks: at most `C + 1` transactions received since
the last reset, at most `C` of them forwarded within the window's second. -/
def Meter.within (C : Nat) (m : Meter) : Prop :=
  m.received ≤ C + 1 ∧ m.inWindow ≤ C

/-- A tick in which nothing takes time: every reading and every channel
operation of the iteration happens at the instant `t`. -/
def Tick.instant (t : Nat) : Tick :=
  { sinceAt := t, resetAt := t, waitAt := t, wakeAt := t, recvAt := t, sendAt := t
    cancel := Cancel.never }

/-- A tick whose throttle wait starts at `t` and lasts until `wake`; the source
and the destination are ready at once. -/
def Tick.waiting (t wake : Nat) : Tick :=
  { sinceAt := t, resetAt := t, waitAt := t, wakeAt := wake, recvAt := wake, sendAt := wake
    cancel := Cancel.never }

/-- Four iterations with a budget of two: the window opened at `5.0s` is used at
`5.0s` and `5.9s`, the window opened at `6.0s` is used twice at `6.0s`. -/
def straddle : List Tick :=
  [Tick.instant 5000000000, Tick.instant 5900000000, Tick.instant 6000000000,
    Tick.instant 6000000000]

/-- Three iterations with a budget of one, the second of which has to wait for
the end of the window opened at `5.0s`. -/
def paced : List Tick :=
  [Tick.instant 5000000000, Tick.waiting 5000000000 6000000000, Tick.instant 6000000000]

/-- The window duration in seconds as the spec words it,
`windowDuration.Seconds()`: a fractional number (`1500ms` is `3/2`). It is
compared with the whole seconds `blockSeconds` the code uses. -/
def durationSeconds (block : Int) : ℚ :=
  (block : ℚ) / 1000000000

/-- A stopped coordinator with two generators and one sender, nothing logged. -/
def idleWorld : World :=
  { tt :=
      { generators := [{ donor := 7, from_ := 0, to_ := 5 }, { donor := 7, from_ := 5, to_ := 10 }]
        senders := [{ nodeUrl := "node" }]
        feedback := { nodeUrl := "node" }
        maxTxnsPerSec := 10
        done := false }
    log := [] }

/-- For every reset of the counter in the trace, at an instant `s`, at most `C`
of the transactions forwarded after that reset, anywhere in the rest of the
run, are forwarded at an instant of `[s, s + 1s)`. -/
def windowsWithin (C : Nat) : List Event → Prop
  | [] => True
  | Event.reset s :: es => forwardedIn s es ≤ C ∧ windowsWithin C es
  | _ :: es => windowsWithin C es

/-- Every reset of the counter in the trace comes a second or more after the
reset before it; `last` is the instant of the last reset so far, if any. -/
def resetsApart : Option Nat → List Event → Prop
  | _, [] => True
  | none, Event.reset s :: es => resetsApart (some s) es
  | some p, Event.reset s :: es => p + second ≤ s ∧ resetsApart (some s) es
  | last, _ :: es => resetsApart last es

/-! # Theorems -/

/-! ## The partition built by `newThreads` -/

theorem assign_length (donor w : Nat) :
    ∀ n f, (assign donor w n f).length = n := by
  intro n
  induction n with
  | zero => intro f; rfl
  | succ k ih => intro f; simp [assign, ih]

theorem assign_bounds (donor w : Nat) :
    ∀ n f, f + n * w < uintMod →
      ∀ g ∈ assign donor w n f, f ≤ g.from_ ∧ g.to_ = g.from_ + w ∧ g.to_ ≤ f + n * w := by
  intro n
  induction n with
  | zero => intro f _ g hg; simp [assign] at hg
  | succ k ih =>
    intro f hf g hg
    have hstep : (f + w) % uintMod = f + w := by
      apply Nat.mod_eq_of_lt
      nlinarith
    have hrest : f + w + k * w < uintMod := by nlinarith
    simp only [assign, hstep, List.mem_cons] at hg
    rcases hg with rfl | hg
    · refine ⟨le_refl _, rfl, ?_⟩
      show f + w ≤ f + (k + 1) * w
      nlinarith
    · obtain ⟨h1, h2, h3⟩ := ih (f + w) hrest g hg
      refine ⟨by omega, h2, ?_⟩
      have : f + w + k * w = f + (k + 1) * w := by ring
      omega

theorem assign_sorted (donor w : Nat) :
    ∀ n f, f + n * w < uintMod →
      (assign donor w n f).Pairwise (fun g h => g.to_ ≤ h.from_) := by
  intro n
  induction n with
  | zero => intro f _; simp [assign]
  | succ k ih =>
    intro f hf
    have hstep : (f + w) % uintMod = f + w := by
      apply Nat.mod_eq_of_lt
      nlinarith
    have hrest : f + w + k * w < uintMod := by nlinarith
    simp only [assign, hstep, List.pairwise_cons]
    refine ⟨?_, ih (f + w) hrest⟩
    intro h hh
    exact (assign_bounds donor w k (f + w) hrest h hh).1

theorem assign_chain (donor w : Nat) :
    ∀ n f, f + n * w < uintMod →
      List.Chain' (fun g h => g.to_ = h.from_) (assign donor w n f) := by
  intro n
  induction n with
  | zero => intro f _; simp [assign]
  | succ k ih =>
    intro f hf
    have hstep : (f + w) % uintMod = f + w := by
      apply Nat.mod_eq_of_lt
      nlinarith
    have hrest : f + w + k * w < uintMod := by nlinarith
    simp only [assign, hstep]
    rw [List.chain'_cons']
    refine ⟨?_, ih (f + w) hrest⟩
    intro h hh
    cases k with
    | zero => simp [assign] at hh
    | succ j =>
      simp only [assign, List.head?_cons, Option.mem_def, Option.some.injEq] at hh
      subst hh
      rfl

theorem assign_union (donor w : Nat) :
    ∀ n f, f + n * w < uintMod →
      ∀ x, (∃ g ∈ assign donor w n f, g.covers x) ↔ f ≤ x ∧ x < f + n * w := by
  intro n
  induction n with
  | zero =>
    intro f _ x
    simp [assign]
  | succ k ih =>
    intro f hf x
    have hstep : (f + w) % uintMod = f + w := by
      apply Nat.mod_eq_of_lt
      nlinarith
    have hrest : f + w + k * w < uintMod := by nlinarith
    have hsum : f + w + k * w = f + (k + 1) * w := by ring
    simp only [assign, hstep, List.exists_mem_cons_iff]
    rw [ih (f + w) hrest x]
    simp only [generator.covers]
    constructor
    · rintro (⟨h1, h2⟩ | ⟨h1, h2⟩)
      · exact ⟨h1, by nlinarith⟩
      · exact ⟨by omega, by omega⟩
    · rintro ⟨h1, h2⟩
      by_cases hx : x < f + w
      · exact Or.inl ⟨h1, hx⟩
      · exact Or.inr ⟨by omega, by omega⟩

/-- Without wrap-around the three locals of `newThreads` have their unbounded values. -/
theorem locals_of_noWrap {count num ofTotal cap : Nat} {block : Int}
    (hnum : 1 ≤ num) (hfit : noWrap count num ofTotal cap block) :
    accs cap ofTotal block = rateBudget cap ofTotal * blockSeconds block ∧
    baseOffset num cap ofTotal block = accs cap ofTotal block * num ∧
    baseOffset num cap ofTotal block
      + count * accsOnThread count cap ofTotal block < uintMod := by
  unfold noWrap at hfit
  have hmul : rateBudget cap ofTotal * blockSeconds block
      ≤ rateBudget cap ofTotal * blockSeconds block * num :=
    Nat.le_mul_of_pos_right _ hnum
  have hA : rateBudget cap ofTotal * blockSeconds block < uintMod := by omega
  have h1 : accs cap ofTotal block = rateBudget cap ofTotal * blockSeconds block :=
    Nat.mod_eq_of_lt hA
  have hB : accs cap ofTotal block * num < uintMod := by rw [h1]; omega
  have h2 : baseOffset num cap ofTotal block = accs cap ofTotal block * num :=
    Nat.mod_eq_of_lt hB
  refine ⟨h1, h2, ?_⟩
  rw [h2]
  unfold accsOnThread
  rw [h1]
  exact hfit

theorem newThreads_ok (count : Nat) (nodeUrl : String) (donor num ofTotal cap : Nat)
    (block : Int) (hnum : 1 ≤ num) (hle : num ≤ ofTotal) (hcount : 0 < count) :
    newThreads count nodeUrl donor num ofTotal cap block = .ok
      { generators :=
          assign donor (accsOnThread count cap ofTotal block) count
            (baseOffset num cap ofTotal block)
        senders := List.replicate 10 { nodeUrl := nodeUrl }
        feedback := { nodeUrl := nodeUrl }
        maxTxnsPerSec := rateBudget cap ofTotal
        done := false } := by
  unfold newThreads
  rw [if_neg (by omega), if_neg (by omega)]

/-- The generators built by a successful `newThreads`, without wrap-around:
their ranges are consecutive slices of width `accsOnThread` from `baseOffset`. -/
theorem newThreads_generators {count num ofTotal cap : Nat} {block : Int}
    (nodeUrl : String) (donor : Nat)
    (hnum : 1 ≤ num) (hle : num ≤ ofTotal) (hcount : 0 < count)
    (hfit : noWrap count num ofTotal cap block) :
    ∃ tt, newThreads count nodeUrl donor num ofTotal cap block = .ok tt ∧
      tt.maxTxnsPerSec = rateBudget cap ofTotal ∧
      tt.generators = assign donor (accsOnThread count cap ofTotal block) count
        (baseOffset num cap ofTotal block) ∧
      baseOffset num cap ofTotal block
        + count * accsOnThread count cap ofTotal block < uintMod :=
  ⟨_, newThreads_ok count nodeUrl donor num ofTotal cap block hnum hle hcount, rfl, rfl,
    (locals_of_noWrap hnum hfit).2.2⟩

/-- C1: for every pool size, configuration and instance index in
`1..ofTotal` (without `uint` wrap-around), `newThreads` returns a coordinator
whose generator ranges are pairwise disjoint, each range ends where the next
one begins, and their union is one interval `[lo, hi)`. -/
theorem newThreads_ranges_partition (count : Nat) (nodeUrl : String)
    (donor num ofTotal cap : Nat) (block : Int)
    (hnum : 1 ≤ num) (hle : num ≤ ofTotal) (hcount : 0 < count)
    (hfit : noWrap count num ofTotal cap block) :
    ∃ tt, newThreads count nodeUrl donor num ofTotal cap block = .ok tt ∧
      tt.generators.length = count ∧
      tt.generators.Pairwise (fun g h => ∀ x, ¬ (g.covers x ∧ h.covers x)) ∧
      List.Chain' (fun g h => g.to_ = h.from_) tt.generators ∧
      ∃ lo hi, ∀ x, (∃ g ∈ tt.generators, g.covers x) ↔ lo ≤ x ∧ x < hi := by
  obtain ⟨tt, hok, _, hgen, hlt⟩ := newThreads_generators nodeUrl donor hnum hle hcount hfit
  refine ⟨tt, hok, ?_, ?_, ?_, ?_⟩
  · rw [hgen, assign_length]
  · rw [hgen]
    refine (assign_sorted donor _ count _ hlt).imp ?_
    intro g h hgh x hx
    unfold generator.covers at hx
    omega
  · rw [hgen]
    exact assign_chain donor _ count _ hlt
  · rw [hgen]
    exact ⟨_, _, assign_union donor _ count _ hlt⟩

theorem newThreads_ranges_partition_witness :
    ∃ tt, newThreads 3 "node" 7 2 2 100 tenSeconds = .ok tt ∧
      tt.generators.length = 3 ∧
      tt.generators.Pairwise (fun g h => ∀ x, ¬ (g.covers x ∧ h.covers x)) ∧
      List.Chain' (fun g h => g.to_ = h.from_) tt.generators ∧
      ∃ lo hi, ∀ x, (∃ g ∈ tt.generators, g.covers x) ↔ lo ≤ x ∧ x < hi :=
  newThreads_ranges_partition 3 "node" 7 2 2 100 tenSeconds (by decide) (by decide)
    (by decide) (by decide)

/-- C2, as stated, fails: with a budget of `1000` accounts and three workers
the ranges are `[1000,1333)`, `[1333,1666)`, `[1666,1999)`, so the account index
`1999` of `[baseOffset, baseOffset + accs)` belongs to no generator. -/
theorem newThreads_union_misses_remainder :
    ∃ tt, newThreads 3 "node" 7 1 1 100 tenSeconds = .ok tt ∧
      accs 100 1 tenSeconds = 1000 ∧ baseOffset 1 100 1 tenSeconds = 1000 ∧
      ranges tt.generators = [(1000, 1333), (1333, 1666), (1666, 1999)] ∧
      ¬ ((∃ g ∈ tt.generators, g.covers 1999) ↔
        baseOffset 1 100 1 tenSeconds ≤ 1999 ∧
          1999 < baseOffset 1 100 1 tenSeconds + accs 100 1 tenSeconds) := by
  refine ⟨_, rfl, ?_, ?_, ?_, ?_⟩ <;> decide

/-- C2, amended: for every valid configuration (without `uint` wrap-around)
the union of the generator ranges is exactly
`[baseOffset, baseOffset + count * (accs / count))`, where
`accs = maxTxnsPerSec * seconds` and `baseOffset = accs * num`; it is
`[baseOffset, baseOffset + accs)` when the pool size divides `accs`. -/
theorem newThreads_ranges_union (count : Nat) (nodeUrl : String)
    (donor num ofTotal cap : Nat) (block : Int)
    (hnum : 1 ≤ num) (hle : num ≤ ofTotal) (hcount : 0 < count)
    (hfit : noWrap count num ofTotal cap block) :
    ∃ tt, newThreads count nodeUrl donor num ofTotal cap block = .ok tt ∧
      accs cap ofTotal block = tt.maxTxnsPerSec * blockSeconds block ∧
      baseOffset num cap ofTotal block = accs cap ofTotal block * num ∧
      (∀ x, (∃ g ∈ tt.generators, g.covers x) ↔
        baseOffset num cap ofTotal block ≤ x ∧
          x < baseOffset num cap ofTotal block
            + count * (accs cap ofTotal block / count)) ∧
      (count ∣ accs cap ofTotal block →
        ∀ x, (∃ g ∈ tt.generators, g.covers x) ↔
          baseOffset num cap ofTotal block ≤ x ∧
            x < baseOffset num cap ofTotal block + accs cap ofTotal block) := by
  obtain ⟨tt, hok, hrate, hgen, hlt⟩ := newThreads_generators nodeUrl donor hnum hle hcount hfit
  obtain ⟨hacc, hbase, _⟩ := locals_of_noWrap hnum hfit
  have hunion := assign_union donor _ count _ hlt
  rw [← hgen] at hunion
  unfold accsOnThread at hunion
  refine ⟨tt, hok, by rw [hrate, hacc], hbase, hunion, ?_⟩
  intro hdvd x
  rw [hunion x, Nat.mul_div_cancel' hdvd]

theorem newThreads_ranges_union_witness :
    ∃ tt, newThreads 4 "node" 7 2 2 100 tenSeconds = .ok tt ∧
      accs 100 2 tenSeconds = tt.maxTxnsPerSec * blockSeconds tenSeconds ∧
      baseOffset 2 100 2 tenSeconds = accs 100 2 tenSeconds * 2 ∧
      (∀ x, (∃ g ∈ tt.generators, g.covers x) ↔
        baseOffset 2 100 2 tenSeconds ≤ x ∧
          x < baseOffset 2 100 2 tenSeconds + 4 * (accs 100 2 tenSeconds / 4)) ∧
      (4 ∣ accs 100 2 tenSeconds →
        ∀ x, (∃ g ∈ tt.generators, g.covers x) ↔
          baseOffset 2 100 2 tenSeconds ≤ x ∧
            x < baseOffset 2 100 2 tenSeconds + accs 100 2 tenSeconds) :=
  newThreads_ranges_union 4 "node" 7 2 2 100 tenSeconds (by decide) (by decide)
    (by decide) (by decide)

/-- C3, as stated, fails: in the scenario `ofTotal = 1`, `num = 1`, cap `100`,
window `10s`, four workers, the ranges do not start at `0`. -/
theorem scenario_ranges_not_from_zero :
    ∃ tt, newThreads 4 "node" 7 1 1 100 tenSeconds = .ok tt ∧
      ranges tt.generators ≠ [(0, 250), (250, 500), (500, 750), (750, 1000)] := by
  refine ⟨_, rfl, ?_⟩
  decide

/-- C3, amended: in the scenario `ofTotal = 1`, `num = 1`, cap `100`, window
`10s`, four workers, `newThreads` computes `maxTxnsPerSec = 100` and
`accs = 1000` and assigns the ranges `[1000,1250)`, `[1250,1500)`,
`[1500,1750)`, `[1750,2000)` in pool order. -/
theorem scenario_offsets_from_budget (nodeUrl : String) (donor : Nat) :
    ∃ tt, newThreads 4 nodeUrl donor 1 1 100 tenSeconds = .ok tt ∧
      tt.maxTxnsPerSec = 100 ∧ accs 100 1 tenSeconds = 1000 ∧
      accsOnThread 4 100 1 tenSeconds = 250 ∧
      ranges tt.generators = [(1000, 1250), (1250, 1500), (1500, 1750), (1750, 2000)] :=
  ⟨_, rfl, rfl, by decide, by decide, rfl⟩

/-- C5: with at least one CPU, `newThreads` panics exactly when `num < 1` or
`num > ofTotal`, and returns a coordinator for every other input, whatever the
rate cap and the window duration. -/
theorem newThreads_fails_iff (count : Nat) (nodeUrl : String)
    (donor num ofTotal cap : Nat) (block : Int) (hcount : 0 < count) :
    ((∃ msg, newThreads count nodeUrl donor num ofTotal cap block = .error msg) ↔
        (num < 1 ∨ num > ofTotal)) ∧
      ((∃ tt, newThreads count nodeUrl donor num ofTotal cap block = .ok tt) ↔
        ¬ (num < 1 ∨ num > ofTotal)) := by
  by_cases h : num < 1 ∨ num > ofTotal
  · have herr : newThreads count nodeUrl donor num ofTotal cap block
        = .error "num is a generator number of total generators count" := by
      unfold newThreads
      rw [if_pos h]
    constructor
    · exact ⟨fun _ => h, fun _ => ⟨_, herr⟩⟩
    · constructor
      · rintro ⟨tt, htt⟩
        rw [herr] at htt
        cases htt
      · intro hn
        exact absurd h hn
  · have hok := newThreads_ok count nodeUrl donor num ofTotal cap block
      (by omega) (by omega) hcount
    constructor
    · constructor
      · rintro ⟨msg, hmsg⟩
        rw [hok] at hmsg
        cases hmsg
      · intro hn
        exact absurd hn h
    · exact ⟨fun _ => h, fun _ => ⟨_, hok⟩⟩

theorem newThreads_fails_iff_witness :
    ((∃ msg, newThreads 4 "node" 7 3 2 100 (-5) = .error msg) ↔ (3 < 1 ∨ 3 > 2)) ∧
      ((∃ tt, newThreads 4 "node" 7 3 2 100 (-5) = .ok tt) ↔ ¬ (3 < 1 ∨ 3 > 2)) :=
  newThreads_fails_iff 4 "node" 7 3 2 100 (-5) (by decide)

/-- For a non-negative `int64` duration, `uint(block.Milliseconds()/1000)` is
the number of whole seconds of the duration. -/
theorem blockSeconds_eq {block : Int} (h0 : 0 ≤ block) (h63 : block < 2 ^ 63) :
    blockSeconds block = (block / 1000000000).toNat := by
  unfold blockSeconds uintMod
  have h1 : block.tdiv 1000000 = block / 1000000 := Int.tdiv_eq_ediv h0 (by norm_num)
  have h2 : (block / 1000000).tdiv 1000 = block / 1000000 / 1000 :=
    Int.tdiv_eq_ediv (by omega) (by norm_num)
  rw [h1, h2]
  norm_num at h63 ⊢
  omega

/-- C8, as stated, fails: for a window of `1500ms` and a rate budget of `100`
the code computes `accs = 100`, not `100 * 1.5 = 150`. -/
theorem accs_drops_fraction_of_second :
    ∃ tt, newThreads 4 "node" 7 1 1 100 1500000000 = .ok tt ∧
      tt.maxTxnsPerSec = 100 ∧ accs 100 1 1500000000 = 100 ∧
      ((accs 100 1 1500000000 : Nat) : ℚ)
        ≠ (tt.maxTxnsPerSec : ℚ) * durationSeconds 1500000000 := by
  have hacc : accs 100 1 1500000000 = 100 := by decide
  refine ⟨_, rfl, by decide, hacc, ?_⟩
  rw [hacc]
  show ((100 : Nat) : ℚ) ≠ ((100 : Nat) : ℚ) * durationSeconds 1500000000
  unfold durationSeconds
  norm_num

/-- C8, amended: for every valid configuration with a non-negative window
(without `uint` wrap-around), `newThreads` sets
`maxTxnsPerSec = cap / ofTotal` and `accs = maxTxnsPerSec * s`, where `s` is
the number of whole seconds of the window (the fraction of a second is
dropped), and every generator gets a range of width `accs / count`. -/
theorem newThreads_budget (count : Nat) (nodeUrl : String)
    (donor num ofTotal cap : Nat) (block : Int)
    (hnum : 1 ≤ num) (hle : num ≤ ofTotal) (hcount : 0 < count)
    (h0 : 0 ≤ block) (h63 : block < 2 ^ 63)
    (hfit : noWrap count num ofTotal cap block) :
    ∃ tt, newThreads count nodeUrl donor num ofTotal cap block = .ok tt ∧
      tt.maxTxnsPerSec = cap / ofTotal ∧
      accs cap ofTotal block = tt.maxTxnsPerSec * (block / 1000000000).toNat ∧
      ∀ g ∈ tt.generators, g.to_ = g.from_ + accs cap ofTotal block / count := by
  obtain ⟨tt, hok, hrate, hgen, hlt⟩ := newThreads_generators nodeUrl donor hnum hle hcount hfit
  obtain ⟨hacc, _, _⟩ := locals_of_noWrap hnum hfit
  refine ⟨tt, hok, hrate, ?_, ?_⟩
  · rw [hacc, hrate, blockSeconds_eq h0 h63]
  · intro g hg
    rw [hgen] at hg
    exact (assign_bounds donor _ count _ hlt g hg).2.1

theorem newThreads_budget_witness :
    ∃ tt, newThreads 4 "node" 7 1 2 100 1500000000 = .ok tt ∧
      tt.maxTxnsPerSec = 100 / 2 ∧
      accs 100 2 1500000000 = tt.maxTxnsPerSec * ((1500000000 : Int) / 1000000000).toNat ∧
      ∀ g ∈ tt.generators, g.to_ = g.from_ + accs 100 2 1500000000 / 4 :=
  newThreads_budget 4 "node" 7 1 2 100 1500000000 (by decide) (by decide) (by decide)
    (by decide) (by decide) (by decide)

/-- C9: for a fixed configuration and two instance indices `a < b` in
`1..ofTotal` (without `uint` wrap-around), the ranges of instance `a` stay
inside `[accs * a, accs * (a + 1))`, and every account index in a range of
instance `a` is smaller than every account index in a range of instance `b`. -/
theorem instances_ranges_ordered (count : Nat) (nodeUrlA nodeUrlB : String)
    (donorA donorB a b ofTotal cap : Nat) (block : Int)
    (ha : 1 ≤ a) (hab : a < b) (hb : b ≤ ofTotal) (hcount : 0 < count)
    (hfit : noWrap count b ofTotal cap block) :
    ∃ ta tb, newThreads count nodeUrlA donorA a ofTotal cap block = .ok ta ∧
      newThreads count nodeUrlB donorB b ofTotal cap block = .ok tb ∧
      (∀ g ∈ ta.generators, accs cap ofTotal block * a ≤ g.from_ ∧
        g.to_ ≤ accs cap ofTotal block * (a + 1)) ∧
      (∀ g ∈ ta.generators, ∀ h ∈ tb.generators, ∀ x y,
        g.covers x → h.covers y → x < y) := by
  have hfitA : noWrap count a ofTotal cap block := by
    unfold noWrap at hfit ⊢
    have : rateBudget cap ofTotal * blockSeconds block * a
        ≤ rateBudget cap ofTotal * blockSeconds block * b :=
      Nat.mul_le_mul_left _ (le_of_lt hab)
    omega
  obtain ⟨ta, hokA, _, hgenA, hltA⟩ :=
    newThreads_generators nodeUrlA donorA ha (by omega) hcount hfitA
  obtain ⟨tb, hokB, _, hgenB, hltB⟩ :=
    newThreads_generators nodeUrlB donorB (by omega : 1 ≤ b) hb hcount hfit
  obtain ⟨_, hbaseA, _⟩ := locals_of_noWrap ha hfitA
  obtain ⟨_, hbaseB, _⟩ := locals_of_noWrap (by omega : 1 ≤ b) hfit
  have hslice : count * accsOnThread count cap ofTotal block ≤ accs cap ofTotal block :=
    Nat.mul_div_le _ _
  have hnext : accs cap ofTotal block * (a + 1) ≤ accs cap ofTotal block * b :=
    Nat.mul_le_mul_left _ hab
  have hinA : ∀ g ∈ ta.generators, accs cap ofTotal block * a ≤ g.from_ ∧
      g.to_ ≤ accs cap ofTotal block * (a + 1) := by
    intro g hg
    rw [hgenA] at hg
    obtain ⟨h1, h2, h3⟩ := assign_bounds donorA _ count _ hltA g hg
    rw [hbaseA] at h1 h3
    refine ⟨h1, ?_⟩
    rw [Nat.mul_succ]
    omega
  refine ⟨ta, tb, hokA, hokB, hinA, ?_⟩
  intro g hg h hh x y hx hy
  have hA := (hinA g hg).2
  rw [hgenB] at hh
  have hB := (assign_bounds donorB _ count _ hltB h hh).1
  rw [hbaseB] at hB
  unfold generator.covers at hx hy
  omega

theorem instances_ranges_ordered_witness :
    ∃ ta tb, newThreads 3 "nodeA" 7 1 3 100 tenSeconds = .ok ta ∧
      newThreads 3 "nodeB" 8 2 3 100 tenSeconds = .ok tb ∧
      (∀ g ∈ ta.generators, accs 100 3 tenSeconds * 1 ≤ g.from_ ∧
        g.to_ ≤ accs 100 3 tenSeconds * (1 + 1)) ∧
      (∀ g ∈ ta.generators, ∀ h ∈ tb.generators, ∀ x y,
        g.covers x → h.covers y → x < y) :=
  instances_ranges_ordered 3 "nodeA" "nodeB" 7 8 1 2 3 100 tenSeconds (by decide) (by decide)
    (by decide) (by decide) (by decide)

/-! ## The lifecycle -/

theorem bootstrapOps_succ (n : Nat) :
    bootstrapOps (n + 1) = bootstrapOps n
      ++ [Op.generatorYield n (n + 1), Op.destinationSend { gen := n, seq := n + 1 }] := by
  unfold bootstrapOps
  rw [List.range_succ, List.flatMap_append, List.flatMap_singleton]

theorem destinationSends_append (a b : List Op) :
    destinationSends (a ++ b) = destinationSends a ++ destinationSends b := by
  unfold destinationSends
  rw [List.filterMap_append]

theorem destinationSends_bootstrapOps (n : Nat) :
    destinationSends (bootstrapOps n)
      = (List.range n).map fun i => ({ gen := i, seq := i + 1 } : Txn) := by
  induction n with
  | zero => rfl
  | succ k ih =>
    rw [bootstrapOps_succ, destinationSends_append, ih, List.range_succ, List.map_append]
    rfl

theorem destinationSends_senderStart (n : Nat) :
    destinationSends ((List.range n).map Op.senderStart) = [] := by
  unfold destinationSends
  rw [List.filterMap_map]
  simp [Function.comp_def]

theorem destinationSends_generatorStart (n : Nat) :
    destinationSends ((List.range n).map Op.generatorStart) = [] := by
  unfold destinationSends
  rw [List.filterMap_map]
  simp [Function.comp_def]

theorem bootstrapOps_no_generatorStart (n : Nat) :
    ∀ op ∈ bootstrapOps n, op.isGeneratorStart = false := by
  intro op hop
  unfold bootstrapOps at hop
  rw [List.mem_flatMap] at hop
  obtain ⟨i, _, hi⟩ := hop
  simp only [List.mem_cons, List.mem_singleton, List.not_mem_nil, or_false] at hi
  rcases hi with rfl | rfl <;> rfl

theorem count_map_range_self (f : Nat → Op) (hf : Function.Injective f) {i n : Nat}
    (h : i < n) : ((List.range n).map f).count (f i) = 1 := by
  rw [List.count_map_of_injective _ f hf]
  exact List.count_eq_one_of_mem (List.nodup_range n) (List.mem_range.2 h)

theorem count_map_range_other (f : Nat → Op) (op : Op) (h : ∀ j, f j ≠ op) (n : Nat) :
    ((List.range n).map f).count op = 0 := by
  apply List.count_eq_zero_of_not_mem
  intro hmem
  rw [List.mem_map] at hmem
  obtain ⟨j, _, hj⟩ := hmem
  exact h j hj

theorem mem_bootstrapOps {n : Nat} {op : Op} :
    op ∈ bootstrapOps n ↔
      ∃ i < n, op = Op.generatorYield i (i + 1)
        ∨ op = Op.destinationSend { gen := i, seq := i + 1 } := by
  unfold bootstrapOps
  simp [List.mem_flatMap]

theorem count_bootstrapOps_yield (i : Nat) :
    ∀ n, i < n → (bootstrapOps n).count (Op.generatorYield i (i + 1)) = 1 := by
  intro n
  induction n with
  | zero => intro h; omega
  | succ k ih =>
    intro h
    rw [bootstrapOps_succ, List.count_append]
    by_cases hk : i < k
    · rw [ih hk]
      have hne : k ≠ i := by omega
      simp [List.count_cons, hne]
    · have hik : i = k := by omega
      subst hik
      have h0 : (bootstrapOps i).count (Op.generatorYield i (i + 1)) = 0 := by
        apply List.count_eq_zero_of_not_mem
        rw [mem_bootstrapOps]
        rintro ⟨j, hj, hj2 | hj2⟩
        · injection hj2 with h1 _
          omega
        · cases hj2
      rw [h0]
      simp [List.count_cons]

theorem count_bootstrapOps_send (i : Nat) :
    ∀ n, i < n →
      (bootstrapOps n).count (Op.destinationSend { gen := i, seq := i + 1 }) = 1 := by
  intro n
  induction n with
  | zero => intro h; omega
  | succ k ih =>
    intro h
    rw [bootstrapOps_succ, List.count_append]
    by_cases hk : i < k
    · rw [ih hk]
      have hne : k ≠ i := by omega
      simp [List.count_cons, hne]
    · have hik : i = k := by omega
      subst hik
      have h0 : (bootstrapOps i).count (Op.destinationSend { gen := i, seq := i + 1 }) = 0 := by
        apply List.count_eq_zero_of_not_mem
        rw [mem_bootstrapOps]
        rintro ⟨j, hj, hj2 | hj2⟩
        · cases hj2
        · injection hj2 with h1
          injection h1 with h2 _
          omega
      rw [h0]
      simp [List.count_cons]

theorem count_bootstrapOps_other (op : Op) (n : Nat)
    (h1 : ∀ i s, op ≠ Op.generatorYield i s) (h2 : ∀ t, op ≠ Op.destinationSend t) :
    (bootstrapOps n).count op = 0 := by
  apply List.count_eq_zero_of_not_mem
  rw [mem_bootstrapOps]
  rintro ⟨j, _, hj | hj⟩
  · exact h1 _ _ hj
  · exact h2 _ hj

/-- How often each start action occurs among the operations of one `Start`. -/
theorem count_startOps (tt : threads) :
    (∀ i < tt.senders.length, (startOps tt).count (Op.senderStart i) = 1) ∧
      (∀ i < tt.generators.length,
        (startOps tt).count (Op.generatorYield i (i + 1)) = 1 ∧
        (startOps tt).count (Op.destinationSend { gen := i, seq := i + 1 }) = 1 ∧
        (startOps tt).count (Op.generatorStart i) = 1) ∧
      (startOps tt).count Op.feedbackStart = 1 ∧
      (startOps tt).count Op.goTxTransfer = 1 ∧
      (startOps tt).count Op.goBlockNotify = 1 := by
  have hs : Function.Injective Op.senderStart := fun a b h => by injection h
  have hg : Function.Injective Op.generatorStart := fun a b h => by injection h
  refine ⟨?_, ?_, ?_, ?_, ?_⟩
  · intro i hi
    unfold startOps
    simp only [List.count_append]
    rw [count_map_range_self _ hs hi, count_map_range_other _ _ (by intro j h; cases h),
      count_bootstrapOps_other _ _ (by intro a b h; cases h) (by intro t h; cases h)]
    simp [List.count_cons]
  · intro i hi
    refine ⟨?_, ?_, ?_⟩
    · unfold startOps
      simp only [List.count_append]
      rw [count_bootstrapOps_yield i _ hi, count_map_range_other _ _ (by intro j h; cases h),
        count_map_range_other _ _ (by intro j h; cases h)]
      simp [List.count_cons]
    · unfold startOps
      simp only [List.count_append]
      rw [count_bootstrapOps_send i _ hi, count_map_range_other _ _ (by intro j h; cases h),
        count_map_range_other _ _ (by intro j h; cases h)]
      simp [List.count_cons]
    · unfold startOps
      simp only [List.count_append]
      rw [count_map_range_self _ hg hi, count_map_range_other _ _ (by intro j h; cases h),
        count_bootstrapOps_other _ _ (by intro a b h; cases h) (by intro t h; cases h)]
      simp [List.count_cons]
  · unfold startOps
    simp only [List.count_append]
    rw [count_map_range_other _ _ (by intro j h; cases h),
      count_map_range_other _ _ (by intro j h; cases h),
      count_bootstrapOps_other _ _ (by intro a b h; cases h) (by intro t h; cases h)]
    simp [List.count_cons]
  · unfold startOps
    simp only [List.count_append]
    rw [count_map_range_other _ _ (by intro j h; cases h),
      count_map_range_other _ _ (by intro j h; cases h),
      count_bootstrapOps_other _ _ (by intro a b h; cases h) (by intro t h; cases h)]
    simp [List.count_cons]
  · unfold startOps
    simp only [List.count_append]
    rw [count_map_range_other _ _ (by intro j h; cases h),
      count_map_range_other _ _ (by intro j h; cases h),
      count_bootstrapOps_other _ _ (by intro a b h; cases h) (by intro t h; cases h)]
    simp [List.count_cons]

/-- C6: `Stop` on a coordinator that is not running and `Start` on a running
one change neither the coordinator nor the log of operations, and after two
`Start`s in a row on a coordinator that was not running every start action has
been performed exactly once: each sender start, each bootstrap yield with its
push, each generator start, the feedback start and the launch of each of the
two background tasks occurs in the log once more than before. -/
theorem lifecycle_idempotent (w : World) :
    (w.tt.done = false → Stop w = w) ∧ (w.tt.done = true → Start w = w) ∧
      Start (Start w) = Start w ∧
      (w.tt.done = false → (Start (Start w)).log = w.log ++ startOps w.tt) ∧
      (w.tt.done = false →
        (∀ i < w.tt.senders.length,
          (Start (Start w)).log.count (Op.senderStart i)
            = w.log.count (Op.senderStart i) + 1) ∧
        (∀ i < w.tt.generators.length,
          (Start (Start w)).log.count (Op.generatorYield i (i + 1))
            = w.log.count (Op.generatorYield i (i + 1)) + 1 ∧
          (Start (Start w)).log.count (Op.destinationSend { gen := i, seq := i + 1 })
            = w.log.count (Op.destinationSend { gen := i, seq := i + 1 }) + 1 ∧
          (Start (Start w)).log.count (Op.generatorStart i)
            = w.log.count (Op.generatorStart i) + 1) ∧
        (Start (Start w)).log.count Op.feedbackStart = w.log.count Op.feedbackStart + 1 ∧
        (Start (Start w)).log.count Op.goTxTransfer = w.log.count Op.goTxTransfer + 1 ∧
        (Start (Start w)).log.count Op.goBlockNotify
          = w.log.count Op.goBlockNotify + 1) := by
  have hSS : Start (Start w) = Start w := by
    by_cases h : w.tt.done = true
    · simp [Start, h]
    · simp [Start, h]
  have hlog : w.tt.done = false → (Start (Start w)).log = w.log ++ startOps w.tt := by
    intro h
    rw [hSS]
    simp [Start, h]
  refine ⟨?_, ?_, hSS, hlog, ?_⟩
  · intro h
    simp [Stop, h]
  · intro h
    simp [Start, h]
  · intro h
    obtain ⟨c1, c2, c3, c4, c5⟩ := count_startOps w.tt
    rw [hlog h]
    simp only [List.count_append]
    refine ⟨?_, ?_, ?_, ?_, ?_⟩
    · intro i hi
      rw [c1 i hi]
    · intro i hi
      obtain ⟨d1, d2, d3⟩ := c2 i hi
      rw [d1, d2, d3]
      exact ⟨rfl, rfl, rfl⟩
    · rw [c3]
    · rw [c4]
    · rw [c5]

theorem lifecycle_idempotent_witness :
    Stop idleWorld = idleWorld ∧ Start (Start idleWorld) = Start idleWorld ∧
      Start (Start idleWorld) = Start (Start idleWorld) ∧
      (Start (Start idleWorld)).log = idleWorld.log ++ startOps idleWorld.tt ∧
      (Start (Start idleWorld)).log.count Op.feedbackStart
        = idleWorld.log.count Op.feedbackStart + 1 ∧
      (Start (Start idleWorld)).log.count (Op.generatorStart 1)
        = idleWorld.log.count (Op.generatorStart 1) + 1 :=
  ⟨(lifecycle_idempotent idleWorld).1 rfl,
    (lifecycle_idempotent (Start idleWorld)).2.1 rfl,
    rfl,
    (lifecycle_idempotent idleWorld).2.2.2.1 rfl,
    ((lifecycle_idempotent idleWorld).2.2.2.2 rfl).2.2.1,
    (((lifecycle_idempotent idleWorld).2.2.2.2 rfl).2.1 1 (by decide)).2.2⟩

/-- C7: a `Start` on a coordinator that is not running with `n` generators
pushes onto the destination channel exactly the results of `Yield(1)` on the
first generator, ..., `Yield(n)` on the last one, in that order, and the log of
the `Start` splits into a part without any generator `Start(source)` followed
by a part without any push onto the destination channel. -/
theorem Start_bootstrap_order (w : World) (h : w.tt.done = false) :
    (Start w).log = w.log ++ startOps w.tt ∧
      destinationSends (startOps w.tt)
        = (List.range w.tt.generators.length).map
            (fun i => ({ gen := i, seq := i + 1 } : Txn)) ∧
      ∃ pre post, startOps w.tt = pre ++ post ∧
        destinationSends pre = destinationSends (startOps w.tt) ∧
        (∀ op ∈ pre, op.isGeneratorStart = false) ∧
        (∀ op ∈ post, op.isDestinationSend = false) := by
  have hsends : destinationSends (startOps w.tt)
      = (List.range w.tt.generators.length).map
          (fun i => ({ gen := i, seq := i + 1 } : Txn)) := by
    unfold startOps
    rw [destinationSends_append, destinationSends_append, destinationSends_append,
      destinationSends_append, destinationSends_senderStart,
      destinationSends_generatorStart, destinationSends_bootstrapOps]
    simp [destinationSends]
  refine ⟨by simp [Start, h], hsends, ?_⟩
  refine ⟨[Op.makeChannels (w.tt.senders.length * 2) (w.tt.generators.length * 2),
        Op.goTxTransfer]
      ++ (List.range w.tt.senders.length).map Op.senderStart
      ++ bootstrapOps w.tt.generators.length,
    (List.range w.tt.generators.length).map Op.generatorStart
      ++ [Op.feedbackStart, Op.goBlockNotify, Op.logInfo "started"], ?_, ?_, ?_, ?_⟩
  · unfold startOps
    simp only [List.append_assoc]
  · rw [hsends, destinationSends_append, destinationSends_append,
      destinationSends_senderStart, destinationSends_bootstrapOps]
    simp [destinationSends]
  · intro op hop
    rw [List.mem_append, List.mem_append] at hop
    rcases hop with (hop | hop) | hop
    · simp only [List.mem_cons, List.mem_singleton, List.not_mem_nil, or_false] at hop
      rcases hop with rfl | rfl <;> rfl
    · rw [List.mem_map] at hop
      obtain ⟨i, _, rfl⟩ := hop
      rfl
    · exact bootstrapOps_no_generatorStart _ op hop
  · intro op hop
    rw [List.mem_append] at hop
    rcases hop with hop | hop
    · rw [List.mem_map] at hop
      obtain ⟨i, _, rfl⟩ := hop
      rfl
    · simp only [List.mem_cons, List.mem_singleton, List.not_mem_nil, or_false] at hop
      rcases hop with rfl | rfl | rfl <;> rfl

theorem Start_bootstrap_order_witness :
    (Start idleWorld).log = idleWorld.log ++ startOps idleWorld.tt ∧
      destinationSends (startOps idleWorld.tt)
        = (List.range idleWorld.tt.generators.length).map
            (fun i => ({ gen := i, seq := i + 1 } : Txn)) ∧
      ∃ pre post, startOps idleWorld.tt = pre ++ post ∧
        destinationSends pre = destinationSends (startOps idleWorld.tt) ∧
        (∀ op ∈ pre, op.isGeneratorStart = false) ∧
        (∀ op ∈ post, op.isDestinationSend = false) :=
  Start_bootstrap_order idleWorld rfl

/-! ## The transfer loop -/

theorem times_append (a b : List Event) : times (a ++ b) = times a ++ times b := by
  induction a with
  | nil => rfl
  | cons e es ih => cases e <;> simp [times, ih]

theorem ascending_append (a b : List Nat) :
    ∀ clock, ascending clock (a ++ b) ↔ ascending clock a ∧ ascending (endClock clock a) b := by
  induction a with
  | nil => intro clock; simp [ascending, endClock]
  | cons t ts ih =>
    intro clock
    have h := ih t
    simp only [endClock] at h
    rw [List.cons_append]
    simp only [ascending, endClock, List.foldl_cons, h, and_assoc]

theorem always_append (P : Meter → Prop) (a b : List Event) :
    ∀ m, always P m (a ++ b) ↔ always P m a ∧ always P (a.foldl Meter.observe m) b := by
  induction a with
  | nil =>
    intro m
    cases b with
    | nil => simp [always]
    | cons e es => simp [always]
  | cons e es ih =>
    intro m
    have h := ih (m.observe e)
    rw [List.cons_append]
    simp only [always, List.foldl_cons, h, and_assoc]

theorem timersOk_append (a b : List Event) :
    timersOk (a ++ b) ↔ timersOk a ∧ timersOk b := by
  unfold timersOk
  simp only [List.mem_append]
  constructor
  · intro h
    exact ⟨fun e he => h e (Or.inl he), fun e he => h e (Or.inr he)⟩
  · rintro ⟨h1, h2⟩ e (he | he)
    · exact h1 e he
    · exact h2 e he

theorem Inv.count_le {C : Nat} {w : Window} {m : Meter} {clock : Nat}
    (h : Inv C w m clock) : w.count ≤ C + 1 := by
  obtain ⟨_, h2, h3, _⟩ := h
  rw [h2]
  exact le_trans (Nat.mod_le _ _) h3

theorem Inv.within {C : Nat} {w : Window} {m : Meter} {clock : Nat}
    (h : Inv C w m clock) : m.within C :=
  ⟨h.2.2.1, h.2.2.2.2.1⟩

/-- One iteration keeps the observer within its bound and re-establishes the
invariant at the head of the next iteration. -/
theorem iteration_inv {C : Nat} (hC : C < uintMod) {w : Window} {m : Meter} {clock : Nat}
    (tk : Tick) (hinv : Inv C w m clock)
    (hasc : ascending clock (times (iteration C w tk).events))
    (htm : timersOk (iteration C w tk).events) :
    always (Meter.within C) m (iteration C w tk).events ∧
      Inv C (iteration C w tk).state ((iteration C w tk).events.foldl Meter.observe m)
        (endClock clock (times (iteration C w tk).events)) := by
  obtain ⟨count, start⟩ := w
  obtain ⟨ms, mr, mw⟩ := m
  obtain ⟨h1, h2, h3, h4, h5, h6⟩ := hinv
  simp only at h1 h2 h3 h4 h5 h6
  subst h1
  have hC2 : C < 18446744073709551616 := hC
  revert hasc htm
  unfold iteration gate receiveAndSend
  cases start with
  | none =>
    simp only
    split_ifs <;> intro hasc htm <;>
    simp [times, ascending, always, Meter.observe, Meter.within, timersOk, Event.timerOk, Inv,
      endClock, expired, inSecond, uintMod] at hasc htm h2 h6 ⊢ <;>
    (try split_ifs) <;> (try omega)
  | some s =>
    simp only
    split_ifs <;> intro hasc htm <;>
    simp [times, ascending, always, Meter.observe, Meter.within, timersOk, Event.timerOk, Inv,
      endClock, expired, inSecond, uintMod] at hasc htm h2 h6 ⊢ <;>
    (try split_ifs) <;> (try omega)

theorem always_mono {P Q : Meter → Prop} (hPQ : ∀ m, P m → Q m) :
    ∀ (tr : List Event) (m : Meter), always P m tr → always Q m tr := by
  intro tr
  induction tr with
  | nil => intro m h; exact hPQ m h
  | cons e es ih => intro m h; exact ⟨hPQ m h.1, ih _ h.2⟩

/-- From any head of iteration that satisfies the invariant, the rest of the
run keeps the counter and the observer within their bounds. -/
theorem loop_inv {C : Nat} (hC : C < uintMod) :
    ∀ (ticks : List Tick) (w : Window) (m : Meter) (clock : Nat), Inv C w m clock →
      ascending clock (times (loop C w ticks).trace) → timersOk (loop C w ticks).trace →
      (loop C w ticks).state.count ≤ C + 1 ∧
        always (Meter.within C) m (loop C w ticks).trace := by
  intro ticks
  induction ticks with
  | nil =>
    intro w m clock hinv _ _
    exact ⟨hinv.count_le, hinv.within⟩
  | cons tk rest ih =>
    intro w m clock hinv hasc htm
    simp only [loop] at hasc htm ⊢
    by_cases hret : (iteration C w tk).returned = true
    · simp only [hret, if_true] at hasc htm ⊢
      have h := iteration_inv hC tk hinv hasc htm
      exact ⟨h.2.count_le, h.1⟩
    · simp only [hret, Bool.false_eq_true, if_false] at hasc htm ⊢
      rw [times_append, ascending_append] at hasc
      rw [timersOk_append] at htm
      have h := iteration_inv hC tk hinv hasc.1 htm.1
      have hrest := ih _ _ _ h.2 hasc.2 htm.2
      refine ⟨hrest.1, ?_⟩
      rw [always_append]
      exact ⟨h.1, hrest.2⟩

theorem inv_init (C : Nat) : Inv C { count := 0, start := none } Meter.init 0 := by
  simp [Inv, Meter.init, expired]

/-- C10: in every run of `txTransfer` in which time is non-decreasing and no
throttle wait returns before `start + time.Second`, the counter `count` never
exceeds `maxTxnsPerSec + 1`, and at every point of the run at most
`maxTxnsPerSec + 1` transactions have been received since the last reset. -/
theorem txTransfer_counter_le (C : Nat) (ticks : List Tick) (hC : C < uintMod)
    (hmono : nonDecreasing (txTransfer C ticks).trace)
    (htimer : timersOk (txTransfer C ticks).trace) :
    (txTransfer C ticks).state.count ≤ C + 1 ∧
      always (fun m => m.received ≤ C + 1) Meter.init (txTransfer C ticks).trace := by
  have h := loop_inv hC ticks _ _ 0 (inv_init C) hmono htimer
  exact ⟨h.1, always_mono (fun m hm => hm.1) _ _ h.2⟩

theorem txTransfer_counter_le_witness :
    (txTransfer 1 paced).state.count ≤ 1 + 1 ∧
      always (fun m => m.received ≤ 1 + 1) Meter.init (txTransfer 1 paced).trace :=
  txTransfer_counter_le 1 paced (by decide) (by decide) (by decide)

theorem forwardedIn_append (s : Nat) (a b : List Event) :
    forwardedIn s (a ++ b) = forwardedIn s a + forwardedIn s b := by
  induction a with
  | nil => simp [forwardedIn]
  | cons e es ih =>
    rw [List.cons_append]
    cases e <;> simp only [forwardedIn, ih]
    omega

/-- Nothing is forwarded within `[s, s + 1s)` once the clock has reached
`s + 1s`. -/
theorem forwardedIn_late (s : Nat) :
    ∀ (tr : List Event) (clock : Nat), s + second ≤ clock →
      ascending clock (times tr) → forwardedIn s tr = 0 := by
  intro tr
  induction tr with
  | nil => intro clock _ _; rfl
  | cons e es ih =>
    intro clock hs hasc
    cases e with
    | since t =>
      simp only [times, ascending] at hasc
      simp only [forwardedIn]
      exact ih t (by omega) hasc.2
    | reset t =>
      simp only [times, ascending] at hasc
      simp only [forwardedIn]
      exact ih t (by omega) hasc.2
    | throttle now timeout wake =>
      simp only [times, ascending] at hasc
      simp only [forwardedIn]
      exact ih wake (by omega) hasc.2.2
    | receive t =>
      simp only [times, ascending] at hasc
      simp only [forwardedIn]
      exact ih t (by omega) hasc.2
    | forward t =>
      simp only [times, ascending] at hasc
      simp only [forwardedIn]
      rw [ih t (by omega) hasc.2, if_neg (by omega)]
    | closed =>
      simp only [times] at hasc
      simp only [forwardedIn]
      exact ih clock hs hasc

set_option maxHeartbeats 2000000 in
/-- One iteration followed by a rest of the run that keeps its windows: the
whole keeps its windows, and the window open at the head of the iteration has
room for what is forwarded within its second. -/
theorem iteration_windows {C : Nat} (hC : C < uintMod) {w : Window} {m : Meter} {clock : Nat}
    (tk : Tick) (rest : List Event) (hinv : Inv C w m clock)
    (hasc : ascending clock (times (iteration C w tk).events))
    (htm : timersOk (iteration C w tk).events)
    (hrest : ascending (endClock clock (times (iteration C w tk).events)) (times rest))
    (hW : windowsWithin C rest ∧ resetsApart (iteration C w tk).state.start rest)
    (hF : ∀ s, (iteration C w tk).state.start = some s →
      forwardedIn s rest + ((iteration C w tk).events.foldl Meter.observe m).inWindow ≤ C) :
    (windowsWithin C ((iteration C w tk).events ++ rest) ∧
        resetsApart w.start ((iteration C w tk).events ++ rest)) ∧
      ∀ s, w.start = some s →
        forwardedIn s ((iteration C w tk).events ++ rest) + m.inWindow ≤ C := by
  have hlate : ∀ s, s + second ≤ endClock clock (times (iteration C w tk).events) →
      forwardedIn s rest = 0 := fun s hs => forwardedIn_late s rest _ hs hrest
  obtain ⟨count, start⟩ := w
  obtain ⟨ms, mr, mw⟩ := m
  obtain ⟨h1, h2, h3, h4, h5, h6⟩ := hinv
  simp only at h1 h2 h3 h4 h5 h6
  subst h1
  have hC2 : C < 18446744073709551616 := hC
  revert hasc htm hrest hW hF hlate
  unfold iteration gate receiveAndSend
  cases start with
  | none =>
    simp only
    split_ifs <;> intro hasc htm hrest hW hlate hF <;> obtain ⟨hW1, hW2⟩ := hW <;>
    simp [times, ascending, always, Meter.observe, Meter.within, timersOk, Event.timerOk, Inv,
      endClock, expired, inSecond, uintMod, windowsWithin, resetsApart, forwardedIn,
      forwardedIn_append] at hasc htm h2 h6 hF hlate ⊢ <;>
    simp only [hW1, hW2, and_true, true_and] <;>
    (try split_ifs at hF ⊢) <;> (try omega)
  | some s =>
    simp only
    split_ifs <;> intro hasc htm hrest hW hlate hF <;> obtain ⟨hW1, hW2⟩ := hW <;>
    simp [times, ascending, always, Meter.observe, Meter.within, timersOk, Event.timerOk, Inv,
      endClock, expired, inSecond, uintMod, windowsWithin, resetsApart, forwardedIn,
      forwardedIn_append] at hasc htm h2 h6 hF hlate ⊢ <;>
    (try simp only [hW1, hW2, and_true, true_and]) <;>
    have hl := hlate s <;>
    (try split_ifs at hF ⊢) <;> (try omega)

/-- From any head of iteration that satisfies the invariant, the rest of the
run keeps its windows, resets at most once a second, and leaves room in the
window that is open. -/
theorem loop_windows {C : Nat} (hC : C < uintMod) :
    ∀ (ticks : List Tick) (w : Window) (m : Meter) (clock : Nat), Inv C w m clock →
      ascending clock (times (loop C w ticks).trace) → timersOk (loop C w ticks).trace →
      (windowsWithin C (loop C w ticks).trace ∧ resetsApart w.start (loop C w ticks).trace) ∧
        ∀ s, w.start = some s → forwardedIn s (loop C w ticks).trace + m.inWindow ≤ C := by
  intro ticks
  induction ticks with
  | nil =>
    intro w m clock hinv _ _
    refine ⟨⟨trivial, ?_⟩, ?_⟩
    · simp [loop, resetsApart]
    · intro s _
      have := hinv.within.2
      simp only [loop, forwardedIn]
      omega
  | cons tk rest ih =>
    intro w m clock hinv hasc htm
    simp only [loop] at hasc htm ⊢
    by_cases hret : (iteration C w tk).returned = true
    · simp only [hret, if_true] at hasc htm ⊢
      have h := iteration_inv hC tk hinv hasc htm
      have hw := iteration_windows hC tk [] hinv hasc htm trivial
        ⟨trivial, by simp [resetsApart]⟩
        (by
          intro s _
          have := h.2.within.2
          simp only [forwardedIn]
          omega)
      rw [List.append_nil] at hw
      exact hw
    · simp only [hret, Bool.false_eq_true, if_false] at hasc htm ⊢
      rw [times_append, ascending_append] at hasc
      rw [timersOk_append] at htm
      have h := iteration_inv hC tk hinv hasc.1 htm.1
      have hrest := ih _ _ _ h.2 hasc.2 htm.2
      exact iteration_windows hC tk _ hinv hasc.1 htm.1 hasc.2 hrest.1 hrest.2

/-- C4, as stated, fails: with a budget of two per second, a source that is
always ready and a destination that always accepts, three transactions are
forwarded within the second that begins at `5.9s` (one at `5.9s`, two at
`6.0s`), although time never goes back, no iteration is cancelled and no
throttle wait is cut short. -/
theorem txTransfer_rolling_window_exceeded :
    uncancelled straddle ∧ nonDecreasing (txTransfer 2 straddle).trace ∧
      timersOk (txTransfer 2 straddle).trace ∧
      forwardedIn 5900000000 (txTransfer 2 straddle).trace = 3 ∧
      ¬ forwardedIn 5900000000 (txTransfer 2 straddle).trace ≤ 2 := by
  decide

/-- C4, amended: in every run of `txTransfer` in which time is non-decreasing
and no throttle wait returns before `start + time.Second`, for every reset of
the counter, at an instant `s`, at most `maxTxnsPerSec` of the transactions
forwarded after that reset, in all the rest of the run, are forwarded at an
instant of `[s, s + 1s)`, and every reset comes a second or more after the
reset before it; this holds for a budget of `0` as well. -/
theorem txTransfer_window_le (C : Nat) (ticks : List Tick) (hC : C < uintMod)
    (hmono : nonDecreasing (txTransfer C ticks).trace)
    (htimer : timersOk (txTransfer C ticks).trace) :
    windowsWithin C (txTransfer C ticks).trace ∧
      resetsApart none (txTransfer C ticks).trace :=
  (loop_windows hC ticks _ _ 0 (inv_init C) hmono htimer).1

theorem txTransfer_window_le_witness :
    windowsWithin 1 (txTransfer 1 paced).trace ∧
      resetsApart none (txTransfer 1 paced).trace :=
  txTransfer_window_le 1 paced (by decide) (by decide) (by decide)

/-- With a budget of one, the transaction received right after a throttle wait
is forwarded at `6.0s`, and the window opened at `6.0s` lets another one
through at once: two transactions in the second that begins at `6.0s`. -/
theorem txTransfer_paced_run :
    (txTransfer 1 paced).trace =
      [Event.since 5000000000, Event.reset 5000000000,
        Event.receive 5000000000, Event.forward 5000000000,
        Event.since 5000000000, Event.throttle 5000000000 1000000000 6000000000,
        Event.receive 6000000000, Event.forward 6000000000,
        Event.since 6000000000, Event.reset 6000000000,
        Event.receive 6000000000, Event.forward 6000000000] ∧
      forwardedIn 6000000000 (txTransfer 1 paced).trace = 2 := by
  decide

end TxnStorm
